import Mathlib

/-!
Verification of the `view!` proc-macro translator (src/lib.rs, src/node.rs).

The macro parses a compact element literal (tag, optional parenthesized
field group, optional parenthesized child group) into a `Node` tree and
emits a builder-call chain.  We shallowly embed the token-tree model of
the host token library (parentheses are groups holding their content),
the expression grammar of the external expression parser (modelled, see
below), and every parser and generator of src/node.rs and the entry
point of src/lib.rs.  Parsers are fuel-indexed; fuel only bounds the
recursion through nested groups and punctuated lists.
-/

namespace LeptosAltView

/-- A lexical token tree: identifiers, literals, `=`, `,`, a parenthesized
group holding its content tokens, and any other punctuation.  Mirrors the
host token library's token-tree model, where a parenthesized group is a
single tree whose content is extracted by the `parenthesized!` helper. -/
inductive Tok : Type
  | ident (s : String)
  | lit (s : String)
  | eq
  | comma
  | group (ts : List Tok)
  | punct (s : String)

/-- An opaque host expression.  Modelled external collaborator: the host
expression grammar is out of scope for the translator (values and children
are accepted opaquely), so it is modelled by identifiers, literals,
parenthesized expressions and tuple expressions — enough to drive every
parser of src/node.rs.  Following the host language, `(e)` without a
trailing comma is a parenthesized expression, not a tuple; `()`, `(e,)`
and `(a, b, ...)` are tuples. -/
inductive Expr : Type
  | ident (s : String)
  | lit (s : String)
  | paren (e : Expr)
  | tuple (es : List Expr)

/-- A positioned diagnostic: an anchor position (modelled as the remaining
token list at the anchor) and the ordered list of messages.  `combine`
appends the messages of a second error, keeping the first anchor, which is
modelled directly at the one combination site in `Node.parse`. -/
structure ParseError : Type where
  span : List Tok
  msgs : List String

mutual

/-- Modelled external collaborator: the host expression parser on the token
model.  Consumes one token tree: an identifier, a literal, or a group whose
content is a comma-separated expression sequence. -/
def parseExpr : Nat → List Tok → Option (Expr × List Tok)
  | 0, _ => none
  | Nat.succ n, ts =>
    match ts with
    | Tok.ident s :: rest => some (Expr.ident s, rest)
    | Tok.lit s :: rest => some (Expr.lit s, rest)
    | Tok.group inner :: rest =>
      match parseExprSeq n inner with
      | some ([e], false) => some (Expr.paren e, rest)
      | some (es, _) => some (Expr.tuple es, rest)
      | none => none
    | _ => none

/-- Modelled external collaborator: a comma-separated expression sequence
filling a whole group; returns the expressions and whether a trailing comma
was present.  Used to decide whether a group is paren or tuple syntax. -/
def parseExprSeq : Nat → List Tok → Option (List Expr × Bool)
  | 0, _ => none
  | Nat.succ n, ts =>
    match ts with
    | [] => some ([], false)
    | _ :: _ =>
      match parseExpr n ts with
      | none => none
      | some (e, []) => some ([e], false)
      | some (e, Tok.comma :: rest) =>
        match rest with
        | [] => some ([e], true)
        | _ :: _ =>
          match parseExprSeq n rest with
          | some (es, tr) => some (e :: es, tr)
          | none => none
      | some (_, _ :: _) => none

end

/-- Modelled external collaborator: the tuple-expression parser
(`fork.parse::<ExprTuple>()` in ClassValue::parse).  Succeeds exactly when
the next token tree is a group whose content is tuple syntax: an empty
group, a sequence with a trailing comma, or two or more components.  A
single component without a trailing comma is paren syntax, not a tuple. -/
def parseExprTuple (n : Nat) (ts : List Tok) : Option (List Expr × List Tok) :=
  match ts with
  | Tok.group inner :: rest =>
    match parseExprSeq n inner with
    | some ([_], false) => none
    | some (es, _) => some (es, rest)
    | none => none
  | _ => none

/-- `Punctuated::parse_terminated` of the host parsing library: zero or
more items separated by commas, optional trailing comma, consuming the
entire stream. -/
def parseTerminated {α : Type} (p : Nat → List Tok → Except ParseError (α × List Tok)) :
    Nat → List Tok → Except ParseError (List α)
  | _, [] => Except.ok []
  | 0, ts => Except.error ⟨ts, ["recursion limit reached"]⟩
  | Nat.succ n, ts =>
    match p n ts with
    | Except.error e => Except.error e
    | Except.ok (x, []) => Except.ok [x]
    | Except.ok (x, Tok.comma :: rest) =>
      match parseTerminated p n rest with
      | Except.ok xs => Except.ok (x :: xs)
      | Except.error e => Except.error e
    | Except.ok (_, t :: rest) => Except.error ⟨t :: rest, ["expected comma"]⟩

/-- One generic name/value field (`Attr` in src/node.rs): `name = value`. -/
structure Attr : Type where
  name : String
  value : Expr

/-- The value of a `class` field (`ClassValue` in src/node.rs): either a
single static expression or a (condition, class) pair from a 2-tuple. -/
inductive ClassValue : Type
  | static (e : Expr)
  | dynamic (cond cls : Expr)

/-- One element-configuration entry (`Field` in src/node.rs): a generic
attribute, a class entry (`cls` stands for the source's `Class` variant),
or a style entry. -/
inductive Field : Type
  | attr (a : Attr)
  | cls (v : ClassValue)
  | style (v : Expr)

/-- `Attr::parse`: an identifier, an `=` token, then an opaque value
expression. -/
def Attr.parse (n : Nat) (ts : List Tok) : Except ParseError (Attr × List Tok) :=
  match ts with
  | Tok.ident name :: Tok.eq :: rest =>
    match parseExpr n rest with
    | some (e, r) => Except.ok (⟨name, e⟩, r)
    | none => Except.error ⟨rest, ["expected expression"]⟩
  | Tok.ident _ :: rest => Except.error ⟨rest, ["expected equals token"]⟩
  | _ => Except.error ⟨ts, ["expected identifier"]⟩

/-- `ClassValue::parse`: speculatively parse a tuple expression on a fork;
on success commit the fork and check the arity (exactly 2 yields `dynamic`,
fewer than 2 yields the fixed "expected a tuple with 2 items" error, more
than 2 yields an error naming the actual count); if the tuple attempt fails
outright, fall back to a single opaque expression from the original
position, yielding `static`. -/
def ClassValue.parse (n : Nat) (ts : List Tok) : Except ParseError (ClassValue × List Tok) :=
  match parseExprTuple n ts with
  | some (elems, rest) =>
    match elems with
    | [] => Except.error ⟨rest, ["expected a tuple with 2 items"]⟩
    | [_] => Except.error ⟨rest, ["expected a tuple with 2 items"]⟩
    | [a, b] => Except.ok (ClassValue.dynamic a b, rest)
    | _ => Except.error ⟨rest, ["tuple has " ++ toString elems.length ++ " items, expected 2"]⟩
  | none =>
    match parseExpr n ts with
    | some (e, rest) => Except.ok (ClassValue.static e, rest)
    | none => Except.error ⟨ts, ["expected expression"]⟩

/-- `Class::parse`: the `class` keyword, `=`, then a `ClassValue`.  The
keyword and equals tokens of the source struct carry no information beyond
spans and are not retained. -/
def Class.parse (n : Nat) (ts : List Tok) : Except ParseError (ClassValue × List Tok) :=
  match ts with
  | Tok.ident "class" :: Tok.eq :: rest => ClassValue.parse n rest
  | Tok.ident "class" :: rest => Except.error ⟨rest, ["expected equals token"]⟩
  | _ => Except.error ⟨ts, ["expected keyword class"]⟩

/-- `Style::parse`: the `style` keyword, `=`, then an opaque expression. -/
def Style.parse (n : Nat) (ts : List Tok) : Except ParseError (Expr × List Tok) :=
  match ts with
  | Tok.ident "style" :: Tok.eq :: rest =>
    match parseExpr n rest with
    | some (e, r) => Except.ok (e, r)
    | none => Except.error ⟨rest, ["expected expression"]⟩
  | Tok.ident "style" :: rest => Except.error ⟨rest, ["expected equals token"]⟩
  | _ => Except.error ⟨ts, ["expected keyword style"]⟩

/-- `input.peek(kw)`: whether the next token is the identifier `kw`. -/
def peekKw (ts : List Tok) (kw : String) : Bool :=
  match ts with
  | Tok.ident s :: _ => s == kw
  | _ => false

/-- `Field::parse`: peek the leading token; the `class` keyword delegates
to the Class parser, `style` delegates to the Style parser, anything else
falls through to the generic Attr form. -/
def Field.parse (n : Nat) (ts : List Tok) : Except ParseError (Field × List Tok) :=
  if peekKw ts "class" then
    (Class.parse n ts).map (fun p => (Field.cls p.1, p.2))
  else if peekKw ts "style" then
    (Style.parse n ts).map (fun p => (Field.style p.1, p.2))
  else
    (Attr.parse n ts).map (fun p => (Field.attr p.1, p.2))

/-- `Child::parse`: one opaque expression. -/
def Child.parse (n : Nat) (ts : List Tok) : Except ParseError (Expr × List Tok) :=
  match parseExpr n ts with
  | some (e, r) => Except.ok (e, r)
  | none => Except.error ⟨ts, ["expected expression"]⟩

/-- `Children::parse`: an empty stream yields the empty list; otherwise a
comma-separated punctuated sequence of child expressions consuming the
whole stream. -/
def Children.parse (n : Nat) (ts : List Tok) : Except ParseError (List Expr) :=
  match ts with
  | [] => Except.ok []
  | _ :: _ => parseTerminated Child.parse n ts

/-- One element literal (`Node` in src/node.rs).  The two `Bool` flags
model the optional paren tokens `fields_paren_token` /
`children_paren_token` (present or absent). -/
structure Node : Type where
  tag : String
  fieldsParen : Bool
  fields : List Field
  childrenParen : Bool
  children : List Expr

/-- `Node::parse`: parse the tag identifier; if a group follows, try its
content as a field list on a fork — on success commit it as the field
list, on failure fall back to parsing the children from the remaining
outer stream (the content of the failed group is not reused), combining
both errors anchored at the group content when the fallback also fails;
then, if children were not already resolved and a second group follows,
parse its content unconditionally as the child list. -/
def Node.parse (n : Nat) (ts : List Tok) : Except ParseError (Node × List Tok) :=
  match ts with
  | Tok.ident tag :: afterTag =>
    match afterTag with
    | Tok.group content :: afterGroup =>
      match parseTerminated Field.parse n content with
      | Except.ok fs =>
        match afterGroup with
        | Tok.group c2 :: afterG2 =>
          match Children.parse n c2 with
          | Except.ok cs =>
            Except.ok ({ tag := tag, fieldsParen := true, fields := fs,
                         childrenParen := true, children := cs }, afterG2)
          | Except.error e => Except.error e
        | _ =>
          Except.ok ({ tag := tag, fieldsParen := true, fields := fs,
                       childrenParen := false, children := [] }, afterGroup)
      | Except.error attrsErr =>
        match Children.parse n afterGroup with
        | Except.ok cs =>
          Except.ok ({ tag := tag, fieldsParen := false, fields := [],
                       childrenParen := false, children := cs }, [])
        | Except.error childrenErr =>
          Except.error ⟨content,
            "expected attributes or children" :: (attrsErr.msgs ++ childrenErr.msgs)⟩
    | _ =>
      Except.ok ({ tag := tag, fieldsParen := false, fields := [],
                   childrenParen := false, children := [] }, afterTag)
  | _ => Except.error ⟨ts, ["expected identifier"]⟩

/-- One emitted builder-call fragment of the generated output. -/
inductive Call : Type
  | construct (tag : String)
  | attr (name : String) (value : Expr)
  | classes (value : Expr)
  | classDyn (cond cls : Expr)
  | style (value : Expr)
  | child (e : Expr)

/-- `Attr::to_tokens`: extend the output with one `.attr(name, value)`
call, the name passed as literal text. -/
def Attr.toTokens (a : Attr) (acc : List Call) : List Call :=
  acc ++ [Call.attr a.name a.value]

/-- `Class::to_tokens`: a static value emits `.classes(value)`, a dynamic
pair emits `.class(cond, cls)`. -/
def Class.toTokens (v : ClassValue) (acc : List Call) : List Call :=
  match v with
  | ClassValue.static e => acc ++ [Call.classes e]
  | ClassValue.dynamic c k => acc ++ [Call.classDyn c k]

/-- `Style::to_tokens`: emit `.style(value)`. -/
def Style.toTokens (v : Expr) (acc : List Call) : List Call :=
  acc ++ [Call.style v]

/-- `Field::to_tokens`: dispatch to the variant's emitter. -/
def Field.toTokens (f : Field) (acc : List Call) : List Call :=
  match f with
  | Field.attr a => Attr.toTokens a acc
  | Field.cls v => Class.toTokens v acc
  | Field.style v => Style.toTokens v acc

/-- `Children::to_tokens`: one `.child(expr)` call per child, in order. -/
def Children.toTokens (cs : List Expr) (acc : List Call) : List Call :=
  cs.foldl (fun a e => a ++ [Call.child e]) acc

/-- `Node::to_tokens`: extend the output with the constructor call for the
tag, then each field's call in order, then each child's call in order. -/
def Node.toTokens (node : Node) (acc : List Call) : List Call :=
  Children.toTokens node.children
    (node.fields.foldl (fun a f => Field.toTokens f a)
      (acc ++ [Call.construct node.tag]))

/-- The macro entry point (src/lib.rs): parse the whole input as one
`Node` — trailing tokens are an "unexpected token" error — and emit its
call chain. -/
def view (n : Nat) (ts : List Tok) : Except ParseError (List Call) :=
  match Node.parse n ts with
  | Except.ok (node, []) => Except.ok (Node.toTokens node [])
  | Except.ok (_, t :: rest) => Except.error ⟨t :: rest, ["unexpected token"]⟩
  | Except.error e => Except.error e

/-- The single builder call a field emits (used to state the generator's
order-preservation property). -/
def fieldCall : Field → Call
  | Field.attr a => Call.attr a.name a.value
  | Field.cls (ClassValue.static e) => Call.classes e
  | Field.cls (ClassValue.dynamic c k) => Call.classDyn c k
  | Field.style v => Call.style v

/-- A punctuated parse of the empty stream yields the empty list, at any
fuel. -/
theorem parseTerminated_nil {α : Type} (p : Nat → List Tok → Except ParseError (α × List Tok))
    (n : Nat) : parseTerminated p n [] = Except.ok [] := by
  cases n <;> rfl

/-- Each field's emitter appends exactly its one builder call. -/
theorem fieldToTokens_append (f : Field) (acc : List Call) :
    Field.toTokens f acc = acc ++ [fieldCall f] := by
  cases f with
  | attr a => rfl
  | cls v => cases v <;> rfl
  | style v => rfl

/-- Folding the field emitters appends one call per field, in order. -/
theorem fields_foldl_eq (fs : List Field) (acc : List Call) :
    fs.foldl (fun a f => Field.toTokens f a) acc = acc ++ fs.map fieldCall := by
  induction fs generalizing acc with
  | nil => simp
  | cons f fs ih => rw [List.foldl_cons, fieldToTokens_append, ih]; simp

/-- The children emitter appends one `.child` call per child, in order. -/
theorem childrenToTokens_append (cs : List Expr) (acc : List Call) :
    Children.toTokens cs acc = acc ++ cs.map Call.child := by
  induction cs generalizing acc with
  | nil => simp [Children.toTokens]
  | cons c cs ih => simp only [Children.toTokens, List.foldl_cons] at ih ⊢; rw [ih]; simp

/-- Claim C1: the spec asserts that `div(span_node)` — a single group that
is not attr-shaped — resolves the group as the child list and produces
`construct(div).child(span_node)`.  The code instead parses the fallback
child list from the outer stream after the group, so the group's content
is discarded and the output is exactly the constructor call with no child
call: the code contradicts the documented resolution of a failed field
group. -/
theorem claim1_single_group_child_discarded :
    view 9 [Tok.ident "div", Tok.group [Tok.ident "span_node"]] =
      Except.ok [Call.construct "div"] := by
  rfl

/-- Claim C4: the generator emits exactly one constructor call for the
tag, then one configuration call per field in declaration order, then one
append-child call per child in declaration order — the emitted sequence
is the constructor call followed by the image of the field list and then
the child list, so counts and order match the parsed tree. -/
theorem claim4_generator_order (node : Node) (acc : List Call) :
    Node.toTokens node acc =
      acc ++ (Call.construct node.tag ::
        (node.fields.map fieldCall ++ node.children.map Call.child)) := by
  unfold Node.toTokens
  rw [childrenToTokens_append, fields_foldl_eq]
  simp

/-- Claim C8: an empty parenthesized group never fails: an empty first
group parses as an empty field list (committed as the field group), an
empty second group parses as an empty child list, and both together also
succeed — at any fuel. -/
theorem claim8_empty_group_never_fails (n : Nat) (tag : String) :
    parseTerminated Field.parse n ([] : List Tok) = Except.ok [] ∧
    Children.parse n ([] : List Tok) = Except.ok [] ∧
    Node.parse n [Tok.ident tag, Tok.group []] =
      Except.ok ({ tag := tag, fieldsParen := true, fields := [],
                   childrenParen := false, children := [] }, []) ∧
    Node.parse n [Tok.ident tag, Tok.group [], Tok.group []] =
      Except.ok ({ tag := tag, fieldsParen := true, fields := [],
                   childrenParen := true, children := [] }, []) := by
  refine ⟨parseTerminated_nil _ n, rfl, ?_, ?_⟩ <;>
    simp [Node.parse, parseTerminated_nil, Children.parse]

/-- Claim C10: when the first group's content fails the field-list parse
and nothing follows the group, the Node parse still succeeds with an
empty field list and an empty child list: the failed group's content is
discarded without an error. -/
theorem claim10_failed_group_discarded (n : Nat) (tag : String) (content : List Tok)
    (e : ParseError) (h : parseTerminated Field.parse n content = Except.error e) :
    Node.parse n [Tok.ident tag, Tok.group content] =
      Except.ok ({ tag := tag, fieldsParen := false, fields := [],
                   childrenParen := false, children := [] }, []) := by
  simp [Node.parse, h, Children.parse]

/-- Claim C10 witness: the content `span_node` fails the field-list parse
(no equals sign follows the identifier), and `div(span_node)` parses to a
node with no fields and no children. -/
theorem claim10_failed_group_discarded_witness :
    Node.parse 5 [Tok.ident "div", Tok.group [Tok.ident "span_node"]] =
      Except.ok ({ tag := "div", fieldsParen := false, fields := [],
                   childrenParen := false, children := [] }, []) :=
  claim10_failed_group_discarded 5 "div" [Tok.ident "span_node"]
    ⟨[], ["expected equals token"]⟩ (by rfl)

/-- Claim C2 counterexample: a class tuple with one component, `(c,)`, is
rejected with the fixed message "expected a tuple with 2 items", which is
not the message that names the actual component count — refuting the
claim that every non-2 arity error names the actual count. -/
theorem claim2_one_component_message_counterexample :
    ClassValue.parse 9 [Tok.group [Tok.ident "c", Tok.comma]] =
      Except.error ⟨[], ["expected a tuple with 2 items"]⟩ ∧
    "expected a tuple with 2 items" ≠ "tuple has 1 items, expected 2" := by
  exact ⟨rfl, by decide⟩

/-- Claim C2 amended: whenever the class value parses as a tuple, a
2-component tuple is always accepted as Dynamic(first, second); a tuple
with 3 or more components is rejected with an error naming the actual
count and the expected count 2; a tuple with fewer than 2 components is
rejected with the fixed message "expected a tuple with 2 items", which
names only the expected count. -/
theorem claim2_tuple_arity (n : Nat) (ts : List Tok) (es : List Expr) (rest : List Tok)
    (h : parseExprTuple n ts = some (es, rest)) :
    (es.length = 2 → ∃ a b, es = [a, b] ∧
      ClassValue.parse n ts = Except.ok (ClassValue.dynamic a b, rest)) ∧
    (3 ≤ es.length → ClassValue.parse n ts =
      Except.error ⟨rest, ["tuple has " ++ toString es.length ++ " items, expected 2"]⟩) ∧
    (es.length ≤ 1 → ClassValue.parse n ts =
      Except.error ⟨rest, ["expected a tuple with 2 items"]⟩) := by
  rcases es with _ | ⟨a, _ | ⟨b, _ | ⟨c, tl⟩⟩⟩
  · exact ⟨fun hlen => absurd hlen (by simp only [List.length_nil]; omega),
      fun hlen => absurd hlen (by simp only [List.length_nil]; omega),
      fun _ => by simp [ClassValue.parse, h]⟩
  · exact ⟨fun hlen => absurd hlen (by simp only [List.length_cons, List.length_nil]; omega),
      fun hlen => absurd hlen (by simp only [List.length_cons, List.length_nil]; omega),
      fun _ => by simp [ClassValue.parse, h]⟩
  · exact ⟨fun _ => ⟨a, b, rfl, by simp [ClassValue.parse, h]⟩,
      fun hlen => absurd hlen (by simp only [List.length_cons, List.length_nil]; omega),
      fun hlen => absurd hlen (by simp only [List.length_cons, List.length_nil]; omega)⟩
  · exact ⟨fun hlen => absurd hlen (by simp only [List.length_cons]; omega),
      fun _ => by simp [ClassValue.parse, h],
      fun hlen => absurd hlen (by simp only [List.length_cons]; omega)⟩

/-- Claim C2 witness: a 3-component tuple is rejected naming the count 3,
a 2-component tuple is accepted as Dynamic, and a 0-component tuple gets
the fixed message. -/
theorem claim2_tuple_arity_witness :
    ClassValue.parse 9 [Tok.group [Tok.ident "a", Tok.comma, Tok.ident "b",
        Tok.comma, Tok.ident "c"]] =
      Except.error ⟨[], ["tuple has 3 items, expected 2"]⟩ ∧
    ClassValue.parse 9 [Tok.group [Tok.ident "is_on", Tok.comma, Tok.lit "active"]] =
      Except.ok (ClassValue.dynamic (Expr.ident "is_on") (Expr.lit "active"), []) ∧
    ClassValue.parse 9 [Tok.group []] =
      Except.error ⟨[], ["expected a tuple with 2 items"]⟩ := by
  refine ⟨?_, ?_, ?_⟩
  · exact (claim2_tuple_arity 9
      [Tok.group [Tok.ident "a", Tok.comma, Tok.ident "b", Tok.comma, Tok.ident "c"]]
      [Expr.ident "a", Expr.ident "b", Expr.ident "c"] [] (by rfl)).2.1 (by simp)
  · obtain ⟨a, b, hab, hp⟩ := (claim2_tuple_arity 9
      [Tok.group [Tok.ident "is_on", Tok.comma, Tok.lit "active"]]
      [Expr.ident "is_on", Expr.lit "active"] [] (by rfl)).1 (by simp)
    simp at hab
    rw [hp, hab.1, hab.2]
  · exact (claim2_tuple_arity 9 [Tok.group []] [] [] (by rfl)).2.2 (by simp)

/-- Claim C5: when the field-list interpretation of the first group fails
and the subsequent child-list parse (of the remaining outer stream) also
fails, the Node parser raises a single diagnostic anchored at the group's
content whose messages are the fixed header followed by the field-list
error's messages and then the child-list error's messages — both
underlying errors preserved. -/
theorem claim5_combined_diagnostic (n : Nat) (tag : String) (content rest : List Tok)
    (ae ce : ParseError)
    (ha : parseTerminated Field.parse n content = Except.error ae)
    (hc : Children.parse n rest = Except.error ce) :
    Node.parse n (Tok.ident tag :: Tok.group content :: rest) =
      Except.error ⟨content, "expected attributes or children" :: (ae.msgs ++ ce.msgs)⟩ := by
  simp [Node.parse, ha, hc]

/-- Claim C5 witness: with group content `=` (failing the field list) and
trailing stream `,` (failing the child list), the combined error carries
both underlying messages and is anchored at the group content. -/
theorem claim5_combined_diagnostic_witness :
    Node.parse 5 [Tok.ident "div", Tok.group [Tok.eq], Tok.comma] =
      Except.error ⟨[Tok.eq],
        ["expected attributes or children", "expected identifier", "expected expression"]⟩ :=
  claim5_combined_diagnostic 5 "div" [Tok.eq] [Tok.comma]
    ⟨[Tok.eq], ["expected identifier"]⟩ ⟨[Tok.comma], ["expected expression"]⟩
    (by rfl) (by rfl)

/-- Claim C6: the Field parser dispatches on the leading token: the
`class` keyword delegates to the Class parser, `style` delegates to the
Style parser, and any other identifier falls through to the generic Attr
form with no special dispatch; `div(id="x")` emits
`construct(div).attr("id", "x")` with the name as literal text. -/
theorem claim6_field_dispatch :
    (∀ n rest, Field.parse n (Tok.ident "class" :: rest) =
      (Class.parse n (Tok.ident "class" :: rest)).map (fun p => (Field.cls p.1, p.2))) ∧
    (∀ n rest, Field.parse n (Tok.ident "style" :: rest) =
      (Style.parse n (Tok.ident "style" :: rest)).map (fun p => (Field.style p.1, p.2))) ∧
    (∀ n s rest, s ≠ "class" → s ≠ "style" →
      Field.parse n (Tok.ident s :: rest) =
        (Attr.parse n (Tok.ident s :: rest)).map (fun p => (Field.attr p.1, p.2))) ∧
    view 9 [Tok.ident "div", Tok.group [Tok.ident "id", Tok.eq, Tok.lit "x"]] =
      Except.ok [Call.construct "div", Call.attr "id" (Expr.lit "x")] := by
  refine ⟨fun n rest => ?_, fun n rest => ?_, fun n s rest hc hs => ?_, rfl⟩
  · simp [Field.parse, peekKw]
  · simp [Field.parse, peekKw]
  · simp [Field.parse, peekKw, hc, hs]

/-- Claim C6 witness: the ordinary identifier `id` is not a reserved
keyword, so `id="x"` parses as a generic Attr field. -/
theorem claim6_field_dispatch_witness :
    Field.parse 5 [Tok.ident "id", Tok.eq, Tok.lit "x"] =
      Except.ok (Field.attr ⟨"id", Expr.lit "x"⟩, []) :=
  (claim6_field_dispatch.2.2.1 5 "id" [Tok.eq, Tok.lit "x"]
    (by decide) (by decide)).trans (by rfl)

/-- Claim C7: the ClassValue parser is speculative: when the tuple
attempt succeeds with exactly two components it yields Dynamic(first,
second) continuing after the tuple, and when the tuple attempt fails
outright it rolls back and parses a single opaque expression from the
original position, yielding Static. -/
theorem claim7_classvalue_speculative (n : Nat) (ts : List Tok) :
    (∀ a b rest, parseExprTuple n ts = some ([a, b], rest) →
      ClassValue.parse n ts = Except.ok (ClassValue.dynamic a b, rest)) ∧
    (parseExprTuple n ts = none → ∀ e rest, parseExpr n ts = some (e, rest) →
      ClassValue.parse n ts = Except.ok (ClassValue.static e, rest)) := by
  constructor
  · intro a b rest h
    simp [ClassValue.parse, h]
  · intro h e rest he
    simp [ClassValue.parse, h, he]

/-- Claim C7 witness: `(is_on, "active")` is tuple syntax and yields
Dynamic; the bare literal `"card"` is not tuple syntax, so the parser
rolls back and yields Static. -/
theorem claim7_classvalue_speculative_witness :
    ClassValue.parse 9 [Tok.group [Tok.ident "is_on", Tok.comma, Tok.lit "active"]] =
      Except.ok (ClassValue.dynamic (Expr.ident "is_on") (Expr.lit "active"), []) ∧
    ClassValue.parse 9 [Tok.lit "card"] =
      Except.ok (ClassValue.static (Expr.lit "card"), []) :=
  ⟨(claim7_classvalue_speculative 9
      [Tok.group [Tok.ident "is_on", Tok.comma, Tok.lit "active"]]).1
      (Expr.ident "is_on") (Expr.lit "active") [] (by rfl),
   (claim7_classvalue_speculative 9 [Tok.lit "card"]).2 (by rfl)
      (Expr.lit "card") [] (by rfl)⟩

/-- Claim C9: the ambiguity resolver takes exactly one branch per first
group: when the group's content parses as a field list it is committed as
the field list (the paren token is recorded and the fields are exactly
the parsed ones), and when the field-list attempt fails the child-list
branch is always taken instead (no field group is recorded, the fields
are empty, and the children are the result of parsing the remaining
outer stream, which is consumed entirely). -/
theorem claim9_resolver_exclusive (n : Nat) (tag : String) (content rest : List Tok) :
    (∀ fs, parseTerminated Field.parse n content = Except.ok fs →
      ∀ node r, Node.parse n (Tok.ident tag :: Tok.group content :: rest) =
          Except.ok (node, r) →
        node.fieldsParen = true ∧ node.fields = fs) ∧
    (∀ e, parseTerminated Field.parse n content = Except.error e →
      ∀ node r, Node.parse n (Tok.ident tag :: Tok.group content :: rest) =
          Except.ok (node, r) →
        node.fieldsParen = false ∧ node.fields = [] ∧ node.childrenParen = false ∧
          Children.parse n rest = Except.ok node.children ∧ r = []) := by
  constructor
  · intro fs hf node r hn
    simp only [Node.parse, hf] at hn
    split at hn
    · split at hn
      · simp only [Except.ok.injEq, Prod.mk.injEq] at hn
        rw [← hn.1]
        exact ⟨rfl, rfl⟩
      · exact absurd hn (by simp)
    · simp only [Except.ok.injEq, Prod.mk.injEq] at hn
      rw [← hn.1]
      exact ⟨rfl, rfl⟩
  · intro e he node r hn
    simp only [Node.parse, he] at hn
    split at hn
    · rename_i cs hcs
      simp only [Except.ok.injEq, Prod.mk.injEq] at hn
      rw [← hn.1, ← hn.2]
      exact ⟨rfl, rfl, rfl, by rw [hcs], rfl⟩
    · exact absurd hn (by simp)

/-- Claim C9 witness: `div(id="x")` takes the field branch (the group is
committed as the field list), and `div(a)` takes the child branch (no
field group is recorded and the empty outer remainder parses as the empty
child list). -/
theorem claim9_resolver_exclusive_witness :
    ((⟨"div", true, [Field.attr ⟨"id", Expr.lit "x"⟩], false, []⟩ : Node).fieldsParen = true ∧
      (⟨"div", true, [Field.attr ⟨"id", Expr.lit "x"⟩], false, []⟩ : Node).fields =
        [Field.attr ⟨"id", Expr.lit "x"⟩]) ∧
    ((⟨"div", false, [], false, []⟩ : Node).fieldsParen = false ∧
      (⟨"div", false, [], false, []⟩ : Node).fields = [] ∧
      (⟨"div", false, [], false, []⟩ : Node).childrenParen = false ∧
      Children.parse 9 ([] : List Tok) =
        Except.ok (⟨"div", false, [], false, []⟩ : Node).children ∧
      ([] : List Tok) = []) :=
  ⟨(claim9_resolver_exclusive 9 "div" [Tok.ident "id", Tok.eq, Tok.lit "x"] []).1
      [Field.attr ⟨"id", Expr.lit "x"⟩] (by rfl)
      ⟨"div", true, [Field.attr ⟨"id", Expr.lit "x"⟩], false, []⟩ [] (by rfl),
   (claim9_resolver_exclusive 9 "div" [Tok.ident "a"] []).2
      ⟨[], ["expected equals token"]⟩ (by rfl)
      ⟨"div", false, [], false, []⟩ [] (by rfl)⟩

/-- The expression parser consumes exactly the leading token tree: its
result is determined by the head token, and the remainder is the tail. -/
theorem parseExpr_head (n : Nat) (t : Tok) (rest : List Tok) :
    parseExpr (Nat.succ n) (t :: rest) =
      (parseExpr (Nat.succ n) [t]).map (fun p => (p.1, rest)) := by
  cases t with
  | ident s => rfl
  | lit s => rfl
  | eq => rfl
  | comma => rfl
  | punct s => rfl
  | group inner =>
    simp only [parseExpr]
    rcases h : parseExprSeq n inner with _ | ⟨_ | ⟨a, _ | ⟨b, tail2⟩⟩, tr⟩ <;>
      first
        | rfl
        | (cases tr <;> rfl)

/-- A successful expression parse leaves exactly the tail of the input. -/
theorem parseExpr_rest (n : Nat) (ts : List Tok) (e : Expr) (r : List Tok)
    (h : parseExpr n ts = some (e, r)) : ∃ t, ts = t :: r := by
  cases n with
  | zero => exact absurd h (by simp [parseExpr])
  | succ n =>
    cases ts with
    | nil => exact absurd h (by simp [parseExpr])
    | cons t rest =>
      refine ⟨t, ?_⟩
      rw [parseExpr_head] at h
      rcases hh : parseExpr (Nat.succ n) [t] with _ | ⟨p1, p2⟩ <;> rw [hh] at h
      · exact absurd h (by simp)
      · simp only [Option.map_some', Option.some.injEq, Prod.mk.injEq] at h
        rw [h.2]

/-- A successful expression parse is unaffected by tokens appended after
the input: the same value is produced and the appendage is returned. -/
theorem parseExpr_extend (n : Nat) (ts ex : List Tok) (e : Expr) (r : List Tok)
    (h : parseExpr n ts = some (e, r)) :
    parseExpr n (ts ++ ex) = some (e, r ++ ex) := by
  cases n with
  | zero => exact absurd h (by simp [parseExpr])
  | succ n =>
    obtain ⟨t, ht⟩ := parseExpr_rest (Nat.succ n) ts e r h
    subst ht
    rw [parseExpr_head] at h
    rw [List.cons_append, parseExpr_head]
    rcases hh : parseExpr (Nat.succ n) [t] with _ | ⟨p1, p2⟩ <;> rw [hh] at h
    · exact absurd h (by simp)
    · simp only [Option.map_some', Option.some.injEq, Prod.mk.injEq] at h
      simp [h.1]

/-- A successful child parse consumes exactly the leading token tree. -/
theorem childParse_rest (n : Nat) (ts : List Tok) (e : Expr) (r : List Tok)
    (h : Child.parse n ts = Except.ok (e, r)) : ∃ t, ts = t :: r := by
  unfold Child.parse at h
  rcases hp : parseExpr n ts with _ | ⟨p1, p2⟩ <;> rw [hp] at h
  · exact absurd h (by simp)
  · simp only [Except.ok.injEq, Prod.mk.injEq] at h
    rw [h.1, h.2] at hp
    exact parseExpr_rest n ts e r hp

/-- A successful child parse is unaffected by appended tokens. -/
theorem childParse_extend (n : Nat) (ts ex : List Tok) (e : Expr) (r : List Tok)
    (h : Child.parse n ts = Except.ok (e, r)) :
    Child.parse n (ts ++ ex) = Except.ok (e, r ++ ex) := by
  unfold Child.parse at h ⊢
  rcases hp : parseExpr n ts with _ | ⟨p1, p2⟩ <;> rw [hp] at h
  · exact absurd h (by simp)
  · simp only [Except.ok.injEq, Prod.mk.injEq] at h
    rw [h.1, h.2] at hp
    rw [parseExpr_extend n ts ex e r hp]

/-- Appending a trailing comma to non-empty child content that parses
successfully (and does not already end in a comma) parses to the same
child list: the punctuated child parse tolerates a trailing comma. -/
theorem childTerminated_trailing (n : Nat) : ∀ (ts : List Tok) (xs : List Expr),
    ts ≠ [] → ts.getLast? ≠ some Tok.comma →
    parseTerminated Child.parse n ts = Except.ok xs →
    parseTerminated Child.parse n (ts ++ [Tok.comma]) = Except.ok xs := by
  induction n with
  | zero =>
    intro ts xs hne _ h
    rcases ts with _ | ⟨t, rest⟩
    · exact absurd rfl hne
    · exact absurd h (by simp [parseTerminated])
  | succ n ih =>
    intro ts xs hne hlast h
    rcases ts with _ | ⟨t, rest⟩
    · exact absurd rfl hne
    · simp only [parseTerminated] at h
      rw [List.cons_append]
      simp only [parseTerminated]
      rcases hp : Child.parse n (t :: rest) with e | ⟨x, r⟩ <;> rw [hp] at h
      · exact absurd h (by simp)
      · obtain ⟨t', ht'⟩ := childParse_rest n (t :: rest) x r hp
        simp only [List.cons.injEq] at ht'
        obtain ⟨-, hreq⟩ := ht'
        subst hreq
        rcases rest with _ | ⟨u, rest2⟩
        · have hext := childParse_extend n [t] [Tok.comma] x [] hp
          simp only [List.nil_append, List.singleton_append] at hext ⊢
          rw [hext]
          simp only [parseTerminated_nil]
          exact h
        · cases u with
          | comma =>
            simp only [] at h
            rcases hr : parseTerminated Child.parse n rest2 with e | xs' <;> rw [hr] at h
            · exact absurd h (by simp)
            · simp only [Except.ok.injEq] at h
              rcases rest2 with _ | ⟨v, rest3⟩
              · exact absurd (by simp) hlast
              · have hlast2 : (v :: rest3).getLast? ≠ some Tok.comma := by
                  rw [List.getLast?_cons_cons, List.getLast?_cons_cons] at hlast
                  exact hlast
                have hih := ih (v :: rest3) xs' (by simp) hlast2 hr
                have hext := childParse_extend n (t :: Tok.comma :: v :: rest3) [Tok.comma]
                  x (Tok.comma :: v :: rest3) hp
                simp only [List.cons_append] at hext hih ⊢
                rw [hext]
                simp only [hih]
                rw [← h]
          | ident s => exact absurd h (by simp)
          | lit s => exact absurd h (by simp)
          | eq => exact absurd h (by simp)
          | group g => exact absurd h (by simp)
          | punct s => exact absurd h (by simp)

/-- Claim C3 counterexample: child content consisting of one expression
followed by a trailing comma parses successfully — refuting the claim
that content ending in a comma fails to parse. -/
theorem claim3_trailing_comma_counterexample :
    Children.parse 9 [Tok.lit "text", Tok.comma] = Except.ok [Expr.lit "text"] := by
  rfl

/-- Claim C3 amended: the Children parser accepts a comma-separated
sequence of opaque expressions and is trailing-comma-tolerant: non-empty
content that parses as a child list also parses, to the same children in
the same encounter order, when a trailing comma is appended. -/
theorem claim3_trailing_comma_tolerant (n : Nat) (ts : List Tok) (xs : List Expr)
    (hne : ts ≠ []) (hlast : ts.getLast? ≠ some Tok.comma)
    (h : Children.parse n ts = Except.ok xs) :
    Children.parse n (ts ++ [Tok.comma]) = Except.ok xs := by
  rcases ts with _ | ⟨t, rest⟩
  · exact absurd rfl hne
  · have h' : parseTerminated Child.parse n (t :: rest) = Except.ok xs := h
    have := childTerminated_trailing n (t :: rest) xs hne hlast h'
    simpa [Children.parse] using this

/-- Claim C3 witness: the single child `span_node` still parses to the
same one-element child list after a trailing comma is appended. -/
theorem claim3_trailing_comma_tolerant_witness :
    Children.parse 9 [Tok.ident "span_node", Tok.comma] =
      Except.ok [Expr.ident "span_node"] := by
  have := claim3_trailing_comma_tolerant 9 [Tok.ident "span_node"]
    [Expr.ident "span_node"] (by simp) (by simp) (by rfl)
  simpa using this

end LeptosAltView
